import Mathlib

/-!
Verification of the libspeex encoder adapter (`libavcodec/libspeexenc.c`).

The development shallowly embeds the adapter's data model and its two main
operations, `encode_init` and `encode_frame`, as executable Lean functions.
The external Speex library (encoder construction, per-frame bit production,
negotiated bitrates, complexity read-back, lookahead, header serialisation)
is an opaque collaborator; it is represented by an oracle record `SpeexLib`
whose fields stand for the values the library returns through
`speex_encoder_ctl` and friends.  Machine floats in the source (the VBR
quality clamp) are embedded as exact rationals; machine ints as `Int`/`Nat`
(no arithmetic in the adapter can overflow in the ranges the claims touch).
-/

namespace LibSpeexEnc

/-- One entry accumulated in the libspeex bitwriter (`SpeexBits`).
`enc n` is the opaque bit string of `n` bits produced by
`speex_encode_int` for one frame; `encStereo n` the bits written by
`speex_encode_stereo_int`; `term` is the fixed 5-bit terminator code
written by `speex_bits_pack(&bits, 15, 5)`. -/
inductive BitChunk where
  | enc (nbits : Nat)
  | encStereo (nbits : Nat)
  | term
deriving Repr, DecidableEq

/-- Number of bits contributed by one bitwriter entry. -/
def BitChunk.nbits : BitChunk → Nat
  | .enc n => n
  | .encStereo n => n
  | .term => 5

/-- Total number of bits currently held in the bitwriter. -/
def bitsLen (l : List BitChunk) : Nat :=
  (l.map BitChunk.nbits).sum

/-- `speex_bits_nbytes`: the byte count of the bitwriter contents,
`((nbBits + 7) >> 3)`. -/
def speex_bits_nbytes (l : List BitChunk) : Nat :=
  (bitsLen l + 7) / 8

/-- The mutable per-session state of `LibSpeexEncContext` used by
`encode_frame`: the packet counters, the running pts clock and the
bitwriter, plus `avctx->coded_frame->pts` (zero after allocation). -/
structure EncState where
  pkt_frame_count : Nat
  pkt_sample_count : Int
  next_pts : Int
  bits : List BitChunk
  coded_frame_pts : ℚ
deriving Repr, DecidableEq

/-- The fields of `AVCodecContext` and `LibSpeexEncContext` that are fixed
after `encode_init` and read by `encode_frame`. -/
structure EncCfg where
  channels : Int
  frame_size : Int
  delay : Int
  frames_per_packet : Nat
  sample_rate : Int
  tb_num : Int
  tb_den : Int
deriving Repr, DecidableEq

/-- Modelled from the spec: `ff_samples_to_time_base` lives in the
framework's `internal.h`, which is not part of this repository's sources;
the spec says the output timestamp is the sample-clock value "converted to
the caller's time base".  We model the conversion as exact rational
rescaling from the `1/sample_rate` clock to the caller time base
`tb_num/tb_den`. -/
def ff_samples_to_time_base (cfg : EncCfg) (samples : Int) : ℚ :=
  (samples : ℚ) * (cfg.tb_den : ℚ) / ((cfg.sample_rate : ℚ) * (cfg.tb_num : ℚ))

/-- Input to one `encode_frame` call: either a frame of samples (`data`)
together with the opaque sizes, in bits, that the library writes into the
bitwriter for it (`monoBits` for `speex_encode_int`, `stereoBits` for
`speex_encode_stereo_int`), or the end-of-stream flush call (`data == NULL`). -/
inductive EncInput where
  | data (monoBits stereoBits : Nat)
  | eos
deriving Repr, DecidableEq

/-- Result of one `encode_frame` call: `noPacket` is the `return 0` ("no
packet yet") path, `packet n` the successful emission of an `n`-byte packet,
`bufferTooSmall` the `AVERROR(EINVAL)` path for an undersized output buffer. -/
inductive EncResult where
  | noPacket
  | packet (nbytes : Nat)
  | bufferTooSmall
deriving Repr, DecidableEq

/-- The terminator-padding loop of the end-of-stream path:
`while (s->pkt_frame_count < s->frames_per_packet) { speex_bits_pack(&s->bits, 15, 5); s->pkt_frame_count++; }`. -/
def padTerminators (fpp : Nat) (s : EncState) : EncState :=
  if _h : s.pkt_frame_count < fpp then
    padTerminators fpp
      { s with bits := s.bits ++ [BitChunk.term],
               pkt_frame_count := s.pkt_frame_count + 1 }
  else s
termination_by fpp - s.pkt_frame_count
decreasing_by
  omega

/-- The sample-carrying branch of `encode_frame` (lines 238-243): the
optional stereo bits and the mono frame bits are appended to the bitwriter,
`pkt_frame_count` is incremented and `pkt_sample_count` advanced by
`avctx->frame_size`. -/
def dataStep (cfg : EncCfg) (s : EncState) (monoBits stereoBits : Nat) : EncState :=
  { s with
    bits := (if cfg.channels = 2 then s.bits ++ [BitChunk.encStereo stereoBits] else s.bits)
              ++ [BitChunk.enc monoBits],
    pkt_frame_count := s.pkt_frame_count + 1,
    pkt_sample_count := s.pkt_sample_count + cfg.frame_size }

/-- The input-handling phase of `encode_frame` (the `if (data) ... else ...`
block, lines 237-253).  Returns `none` on the early `return 0` of the
end-of-stream path with no pending frames. -/
def handleInput (cfg : EncCfg) (s : EncState) (input : EncInput) : Option EncState :=
  match input with
  | EncInput.data monoBits stereoBits => some (dataStep cfg s monoBits stereoBits)
  | EncInput.eos =>
      if s.pkt_frame_count = 0 then none
      else some (padTerminators cfg.frames_per_packet s)

/-- The packet-emission phase of `encode_frame` (lines 255-271): if all
frames for the packet have been encoded, reset the counters, stamp
`coded_frame->pts`, advance `next_pts`, and either write out the packet
(resetting the bitwriter) or fail with the buffer-too-small error. -/
def emitIfReady (cfg : EncCfg) (s : EncState) (buf_size : Nat) : EncState × EncResult :=
  if s.pkt_frame_count = cfg.frames_per_packet then
    let s1 : EncState :=
      { s with pkt_frame_count := 0,
               coded_frame_pts := ff_samples_to_time_base cfg (s.next_pts - cfg.delay),
               next_pts := s.next_pts + s.pkt_sample_count,
               pkt_sample_count := 0 }
    if speex_bits_nbytes s.bits < buf_size then
      ({ s1 with bits := [] }, EncResult.packet (min (speex_bits_nbytes s.bits) buf_size))
    else
      (s1, EncResult.bufferTooSmall)
  else
    (s, EncResult.noPacket)

/-- `encode_frame` (lines 231-272): handle the input, then emit a packet if
`pkt_frame_count` has reached `frames_per_packet`. -/
def encode_frame (cfg : EncCfg) (s : EncState) (input : EncInput) (buf_size : Nat) :
    EncState × EncResult :=
  match handleInput cfg s input with
  | none => (s, EncResult.noPacket)
  | some t => emitIfReady cfg t buf_size

/-- The three Speex modes, selected by sample rate in `encode_init`. -/
inductive SpeexMode where
  | nb
  | wb
  | uwb
deriving Repr, DecidableEq

/-- `av_clipf(a, amin, amax)` (exact-rational embedding of the float clip). -/
def av_clipf (a amin amax : ℚ) : ℚ :=
  if a < amin then amin else if a > amax then amax else a

/-- `av_clip(a, amin, amax)`. -/
def av_clip (a amin amax : Int) : Int :=
  if a < amin then amin else if a > amax then amax else a

/-- `FF_QP2LAMBDA` (libavutil constant; `avctx->global_quality` is the
caller quality multiplied by this factor). -/
def FF_QP2LAMBDA : Int := 118

/-- The caller-supplied configuration read by `encode_init`: the
`AVCodecContext` fields plus the adapter's private options. -/
structure InitCfg where
  channels : Int
  sample_rate : Int
  flag_qscale : Bool
  global_quality : Int
  bit_rate : Int
  abr : Bool
  cbr_quality : Int
  compression_level : Int
  frames_per_packet : Nat
deriving Repr, DecidableEq

/-- Oracle for the external Speex library and the allocator: the values the
black-box calls in `encode_init` produce.  `abr_negotiate b` is the value
`SPEEX_GET_ABR` reads back after `SPEEX_SET_ABR` with target `b`;
`cbr_negotiate b` likewise for `SPEEX_SET_BITRATE`/`SPEEX_GET_BITRATE`;
`quality_bitrate q` the `SPEEX_GET_BITRATE` read-back after
`SPEEX_SET_QUALITY q`; `complexity_readback` takes the optionally-set
complexity; `header_bitrate0` is the bitrate field `speex_init_header`
writes; `extradata_ok`/`coded_frame_ok` model the two allocations. -/
structure SpeexLib where
  encoder_init_ok : Bool
  header_bitrate0 : Int
  abr_negotiate : Int → Int
  cbr_negotiate : Int → Int
  quality_bitrate : Int → Int
  complexity_readback : Option Int → Int
  frame_size_of : SpeexMode → Int
  lookahead : Int
  header_size : Nat
  extradata_ok : Bool
  coded_frame_ok : Bool

/-- The error returns of `encode_init`: `AVERROR(EINVAL)` for bad
channels/sample rate, `-1` for `speex_encoder_init` failure,
`AVERROR(ENOMEM)` for allocation failure. -/
inductive InitError where
  | invalidConfig
  | codecInitFailed
  | allocationFailed
deriving Repr, DecidableEq

/-- Summary of the rate-control branch taken in lines 154-187, with the
value pushed to / read back from the codec. -/
inductive RateControl where
  | vbr (quality : ℚ)
  | abr (bitrate : Int)
  | cbrBitrate (bitrate : Int)
  | cbrQuality (quality : Int) (bitrate : Int)
deriving Repr, DecidableEq

/-- Resource bookkeeping across an `encode_init` call, for the leak check on
the failure paths: which of the codec instance, `avctx->extradata`,
`avctx->coded_frame` and the libspeex-allocated `header_data` were
created/allocated and which were destroyed/freed before returning. -/
structure Resources where
  enc_state_created : Bool
  enc_state_destroyed : Bool
  extradata_allocated : Bool
  extradata_freed : Bool
  coded_frame_allocated : Bool
  coded_frame_freed : Bool
  header_data_freed : Bool
deriving Repr, DecidableEq

/-- Resource state when `encode_init` returns before creating anything. -/
def noResources : Resources :=
  ⟨false, false, false, false, false, false, false⟩

/-- The result fields of a successful `encode_init`: the selected mode, the
header fields it wrote, the context fields reported back to the caller
(`avctx->bit_rate`, `avctx->compression_level`, `avctx->frame_size`,
`avctx->delay`, `avctx->extradata_size`), and the initial encoder state. -/
structure InitOk where
  mode : SpeexMode
  header_vbr : Bool
  header_bitrate : Int
  vbr_quality : ℚ
  rc : RateControl
  bit_rate : Int
  compression_level : Int
  frame_size : Int
  frames_per_packet : Nat
  delay : Int
  extradata_size : Nat
  state0 : EncState
deriving Repr, DecidableEq

/-- The rate-control selection of lines 154-183, returning
(`header.vbr`, `header.bitrate`, `s->vbr_quality`, branch summary).
In the VBR branch `header.bitrate` keeps the value `speex_init_header`
wrote and `s->vbr_quality` is the clamped quality; in the non-VBR branches
`header.bitrate` is first set to `avctx->bit_rate` and then overwritten by
the codec read-back, and `s->vbr_quality` keeps its zero-initialised value. -/
def rcSelect (cfg : InitCfg) (lib : SpeexLib) : Bool × Int × ℚ × RateControl :=
  if cfg.flag_qscale then
    let q := av_clipf ((cfg.global_quality : ℚ) / (FF_QP2LAMBDA : ℚ)) 0 10
    (true, lib.header_bitrate0, q, RateControl.vbr q)
  else
    if 0 < cfg.bit_rate then
      if cfg.abr then
        let b := lib.abr_negotiate cfg.bit_rate
        (false, b, 0, RateControl.abr b)
      else
        let b := lib.cbr_negotiate cfg.bit_rate
        (false, b, 0, RateControl.cbrBitrate b)
    else
      let b := lib.quality_bitrate cfg.cbr_quality
      (false, b, 0, RateControl.cbrQuality cfg.cbr_quality b)

/-- The encoder state right after `encode_init`: the private context is
zero-initialised by the framework and `speex_bits_init` leaves the
bitwriter empty. -/
def initEncState : EncState :=
  ⟨0, 0, 0, [], 0⟩

/-- The tail of `encode_init` after the mode has been selected
(lines 146-228): create the codec instance, fill the header, select the
rate-control policy, set complexity, publish frame size / frames-per-packet
/ delay, serialize the header, allocate `extradata` and `coded_frame`. -/
def initWithMode (cfg : InitCfg) (lib : SpeexLib) (mode : SpeexMode) :
    Except InitError InitOk × Resources :=
  if lib.encoder_init_ok = false then
    (Except.error InitError.codecInitFailed, noResources)
  else
    let rcv := rcSelect cfg lib
    let bit_rate_out :=
      if cfg.flag_qscale then cfg.bit_rate
      else rcv.2.1 + (if cfg.channels = 2 then 800 else 0)
    let complexity :=
      if (-1 : Int) < cfg.compression_level then
        lib.complexity_readback (some (av_clip cfg.compression_level 0 10))
      else
        lib.complexity_readback none
    if lib.extradata_ok = false ∨ lib.coded_frame_ok = false then
      (Except.error InitError.allocationFailed,
       ⟨true, true, lib.extradata_ok, false, lib.coded_frame_ok, false, true⟩)
    else
      (Except.ok
        ⟨mode, rcv.1, rcv.2.1, rcv.2.2.1, rcv.2.2.2, bit_rate_out, complexity,
         lib.frame_size_of mode, cfg.frames_per_packet, lib.lookahead,
         lib.header_size, initEncState⟩,
       ⟨true, false, true, false, true, false, true⟩)

/-- `encode_init` (lines 120-229): validate the channel count, select the
mode by the sample-rate switch of lines 136-144, then run the rest of the
initialization.  Also returns the resource bookkeeping of the call. -/
def encode_init (cfg : InitCfg) (lib : SpeexLib) :
    Except InitError InitOk × Resources :=
  if cfg.channels < 1 ∨ 2 < cfg.channels then
    (Except.error InitError.invalidConfig, noResources)
  else if cfg.sample_rate = 8000 then initWithMode cfg lib SpeexMode.nb
  else if cfg.sample_rate = 16000 then initWithMode cfg lib SpeexMode.wb
  else if cfg.sample_rate = 32000 then initWithMode cfg lib SpeexMode.uwb
  else (Except.error InitError.invalidConfig, noResources)

/-! ### Basic lemmas about the encode path -/

/-- Closed form of the terminator-padding loop: it appends one 5-bit
terminator per missing frame slot and advances the frame counter
accordingly, touching nothing else. -/
theorem padTerminators_eq (fpp : Nat) (s : EncState) :
    padTerminators fpp s =
      { s with bits := s.bits ++ List.replicate (fpp - s.pkt_frame_count) BitChunk.term,
               pkt_frame_count := s.pkt_frame_count + (fpp - s.pkt_frame_count) } := by
  generalize hn : fpp - s.pkt_frame_count = n
  induction n generalizing s with
  | zero =>
    rw [padTerminators, dif_neg (by omega)]
    simp [hn]
  | succ k ih =>
    have hlt : s.pkt_frame_count < fpp := by omega
    rw [padTerminators, dif_pos hlt]
    rw [ih _ (by simp; omega)]
    simp [List.append_assoc, List.replicate_succ]
    omega

theorem handleInput_data (cfg : EncCfg) (s : EncState) (m st : Nat) :
    handleInput cfg s (EncInput.data m st) = some (dataStep cfg s m st) := rfl

theorem handleInput_eos_zero (cfg : EncCfg) (s : EncState)
    (h : s.pkt_frame_count = 0) :
    handleInput cfg s EncInput.eos = none := by
  simp [handleInput, h]

theorem handleInput_eos_pos (cfg : EncCfg) (s : EncState)
    (h : s.pkt_frame_count ≠ 0) (hle : s.pkt_frame_count ≤ cfg.frames_per_packet) :
    handleInput cfg s EncInput.eos =
      some { s with
        bits := s.bits ++
          List.replicate (cfg.frames_per_packet - s.pkt_frame_count) BitChunk.term,
        pkt_frame_count := cfg.frames_per_packet } := by
  have hc : s.pkt_frame_count + (cfg.frames_per_packet - s.pkt_frame_count) =
      cfg.frames_per_packet := by omega
  simp only [handleInput, if_neg h, padTerminators_eq, hc]

/-- Any state produced by the input-handling phase preserves `next_pts` and
`coded_frame_pts` and has a nonzero frame count. -/
theorem handleInput_some (cfg : EncCfg) (s t : EncState) (input : EncInput)
    (h : handleInput cfg s input = some t) :
    t.next_pts = s.next_pts ∧ t.coded_frame_pts = s.coded_frame_pts ∧
      t.pkt_frame_count ≠ 0 := by
  cases input with
  | data m st =>
    rw [handleInput_data] at h
    cases h
    simp [dataStep]
  | eos =>
    by_cases h0 : s.pkt_frame_count = 0
    · rw [handleInput_eos_zero cfg s h0] at h
      cases h
    · simp only [handleInput, if_neg h0, padTerminators_eq, Option.some.injEq] at h
      cases h
      simp
      omega

theorem encode_frame_some (cfg : EncCfg) (s t : EncState) (input : EncInput)
    (buf_size : Nat) (ht : handleInput cfg s input = some t) :
    encode_frame cfg s input buf_size = emitIfReady cfg t buf_size := by
  unfold encode_frame
  rw [ht]

theorem encode_frame_none (cfg : EncCfg) (s : EncState) (input : EncInput)
    (buf_size : Nat) (ht : handleInput cfg s input = none) :
    encode_frame cfg s input buf_size = (s, EncResult.noPacket) := by
  unfold encode_frame
  rw [ht]

theorem emitIfReady_not_ready (cfg : EncCfg) (t : EncState) (buf_size : Nat)
    (h : t.pkt_frame_count ≠ cfg.frames_per_packet) :
    emitIfReady cfg t buf_size = (t, EncResult.noPacket) := by
  simp [emitIfReady, h]

theorem emitIfReady_ready_big (cfg : EncCfg) (t : EncState) (buf_size : Nat)
    (h : t.pkt_frame_count = cfg.frames_per_packet)
    (hb : speex_bits_nbytes t.bits < buf_size) :
    emitIfReady cfg t buf_size =
      (⟨0, 0, t.next_pts + t.pkt_sample_count, [],
        ff_samples_to_time_base cfg (t.next_pts - cfg.delay)⟩,
       EncResult.packet (speex_bits_nbytes t.bits)) := by
  simp [emitIfReady, h, hb, Nat.min_eq_left (Nat.le_of_lt hb)]

theorem emitIfReady_ready_small (cfg : EncCfg) (t : EncState) (buf_size : Nat)
    (h : t.pkt_frame_count = cfg.frames_per_packet)
    (hb : ¬ speex_bits_nbytes t.bits < buf_size) :
    emitIfReady cfg t buf_size =
      (⟨0, 0, t.next_pts + t.pkt_sample_count, t.bits,
        ff_samples_to_time_base cfg (t.next_pts - cfg.delay)⟩,
       EncResult.bufferTooSmall) := by
  simp [emitIfReady, h, hb]

/-! ### Concrete fixtures used by witnesses and counterexamples -/

/-- Concrete mono 8 kHz configuration, one frame per packet, no lookahead,
caller time base `1/8000`. -/
def encCfgMono : EncCfg := ⟨1, 160, 0, 1, 8000, 1, 8000⟩

/-- Concrete mono 8 kHz configuration with two frames per packet. -/
def encCfgMono2 : EncCfg := ⟨1, 160, 0, 2, 8000, 1, 8000⟩

/-- A state with one pending 100-bit frame (the image of `initEncState`
under one sample-carrying call on `encCfgMono2`). -/
def statePending1 : EncState := ⟨1, 160, 0, [BitChunk.enc 100], 0⟩

/-! ### C1 -/

/-- C1 fails on the code: when a completed packet does not fit the output
buffer, `encode_frame` has already reset `pkt_frame_count` and
`pkt_sample_count` and advanced `next_pts` before the buffer check.  At the
concrete input (mono, one frame per packet, a 100-bit frame, a zero-byte
output buffer) the call returns the buffer-too-small error, yet `next_pts`
has moved from 0 to 160 — contradicting the claim that
`nextPresentationTimestamp` is unchanged on this path. -/
theorem C1_counterexample :
    (encode_frame encCfgMono initEncState (EncInput.data 100 0) 0).2 =
        EncResult.bufferTooSmall ∧
    (encode_frame encCfgMono initEncState (EncInput.data 100 0) 0).1.next_pts ≠
        initEncState.next_pts := by
  decide

/-- C1 (amended): when `encode_frame` completes a packet
(`pkt_frame_count` reaches `frames_per_packet` after handling the input)
but the caller-supplied output buffer is not strictly larger than the
packet's byte size, the call fails with the buffer-too-small error and the
bitwriter is NOT reset (it still holds exactly the completed packet's
bits); however the internal counters ARE advanced: `pkt_frame_count` and
`pkt_sample_count` are reset to zero and `next_pts` is advanced by the
packet's aggregate sample count before the buffer check, so the completed
packet is not re-emitted as-is by a subsequent call. -/
theorem C1_amended_buffer_too_small (cfg : EncCfg) (s t : EncState)
    (input : EncInput) (buf_size : Nat)
    (ht : handleInput cfg s input = some t)
    (hc : t.pkt_frame_count = cfg.frames_per_packet)
    (hb : buf_size ≤ speex_bits_nbytes t.bits) :
    (encode_frame cfg s input buf_size).2 = EncResult.bufferTooSmall ∧
    (encode_frame cfg s input buf_size).1.bits = t.bits ∧
    (encode_frame cfg s input buf_size).1.pkt_frame_count = 0 ∧
    (encode_frame cfg s input buf_size).1.pkt_sample_count = 0 ∧
    (encode_frame cfg s input buf_size).1.next_pts =
      s.next_pts + t.pkt_sample_count := by
  have hnb : ¬ speex_bits_nbytes t.bits < buf_size := by omega
  have hnext := (handleInput_some cfg s t input ht).1
  simp [encode_frame, ht, emitIfReady_ready_small cfg t buf_size hc hnb, hnext]

/-- Witness for the amended C1 at a concrete input. -/
theorem C1_amended_witness :
    (encode_frame encCfgMono initEncState (EncInput.data 100 0) 0).2 =
        EncResult.bufferTooSmall ∧
    (encode_frame encCfgMono initEncState (EncInput.data 100 0) 0).1.bits =
        statePending1.bits ∧
    (encode_frame encCfgMono initEncState (EncInput.data 100 0) 0).1.pkt_frame_count = 0 ∧
    (encode_frame encCfgMono initEncState (EncInput.data 100 0) 0).1.pkt_sample_count = 0 ∧
    (encode_frame encCfgMono initEncState (EncInput.data 100 0) 0).1.next_pts =
      initEncState.next_pts + statePending1.pkt_sample_count :=
  C1_amended_buffer_too_small encCfgMono initEncState statePending1
    (EncInput.data 100 0) 0 (by decide) (by decide) (by decide)

/-! ### C5 -/

/-- C5: on the end-of-stream call, if no frames are pending the call
returns no packet, no error, and leaves the state untouched; otherwise it
pads the current packet up to `frames_per_packet` by appending one fixed
5-bit terminator entry per missing frame slot (advancing `pkt_frame_count`
to `frames_per_packet` while `pkt_sample_count` and all other fields are
unchanged by the padding), and then — given a large enough output buffer —
emits exactly one final packet. -/
theorem C5_eos_padding (cfg : EncCfg) (s : EncState) (buf_size : Nat) :
    (s.pkt_frame_count = 0 →
       encode_frame cfg s EncInput.eos buf_size = (s, EncResult.noPacket)) ∧
    (s.pkt_frame_count ≠ 0 → s.pkt_frame_count ≤ cfg.frames_per_packet →
       handleInput cfg s EncInput.eos =
         some { s with
           bits := s.bits ++
             List.replicate (cfg.frames_per_packet - s.pkt_frame_count) BitChunk.term,
           pkt_frame_count := cfg.frames_per_packet } ∧
       (speex_bits_nbytes (s.bits ++
            List.replicate (cfg.frames_per_packet - s.pkt_frame_count) BitChunk.term) <
          buf_size →
        (encode_frame cfg s EncInput.eos buf_size).2 =
          EncResult.packet (speex_bits_nbytes (s.bits ++
            List.replicate (cfg.frames_per_packet - s.pkt_frame_count) BitChunk.term)))) := by
  constructor
  · intro h0
    simp [encode_frame, handleInput_eos_zero cfg s h0]
  · intro h0 hle
    have hh := handleInput_eos_pos cfg s h0 hle
    refine ⟨hh, fun hbuf => ?_⟩
    rw [encode_frame_some cfg s _ EncInput.eos buf_size hh, emitIfReady_ready_big]
    all_goals first
      | rfl
      | exact hbuf

/-- Witness for C5: flushing a packet holding one pending frame with
`frames_per_packet = 2` appends one terminator and emits one packet. -/
theorem C5_witness :
    (statePending1.pkt_frame_count ≠ 0 ∧
     statePending1.pkt_frame_count ≤ encCfgMono2.frames_per_packet) ∧
    handleInput encCfgMono2 statePending1 EncInput.eos =
      some { statePending1 with
        bits := statePending1.bits ++
          List.replicate
            (encCfgMono2.frames_per_packet - statePending1.pkt_frame_count)
            BitChunk.term,
        pkt_frame_count := encCfgMono2.frames_per_packet } ∧
    (encode_frame encCfgMono2 statePending1 EncInput.eos 100).2 =
      EncResult.packet 14 :=
  have h := (C5_eos_padding encCfgMono2 statePending1 100).2 (by decide) (by decide)
  ⟨⟨by decide, by decide⟩, h.1, h.2 (by decide)⟩

/-! ### C10 -/

/-- C10: emission of a completed packet requires the output buffer to be
strictly larger than the packet's serialized byte count: the call fails
with the buffer-too-small error exactly when `buf_size` is at most the
byte count; in particular a buffer of exactly the packet's size fails,
while one byte more succeeds. -/
theorem C10_strict_buffer_requirement (cfg : EncCfg) (s t : EncState)
    (input : EncInput) (buf_size : Nat)
    (ht : handleInput cfg s input = some t)
    (hc : t.pkt_frame_count = cfg.frames_per_packet) :
    ((encode_frame cfg s input buf_size).2 = EncResult.bufferTooSmall ↔
       buf_size ≤ speex_bits_nbytes t.bits) ∧
    (buf_size = speex_bits_nbytes t.bits →
       (encode_frame cfg s input buf_size).2 = EncResult.bufferTooSmall) ∧
    (buf_size = speex_bits_nbytes t.bits + 1 →
       (encode_frame cfg s input buf_size).2 =
         EncResult.packet (speex_bits_nbytes t.bits)) := by
  rw [encode_frame_some cfg s t input buf_size ht]
  by_cases hb : speex_bits_nbytes t.bits < buf_size
  · rw [emitIfReady_ready_big cfg t buf_size hc hb]
    refine ⟨by simp; omega, fun he => by omega, fun _ => rfl⟩
  · rw [emitIfReady_ready_small cfg t buf_size hc hb]
    refine ⟨by simp; omega, fun _ => rfl, fun he => by omega⟩

/-- Witness for C10: a 100-bit packet (13 bytes) with a 13-byte buffer
fails, and with a 14-byte buffer succeeds. -/
theorem C10_witness :
    ((encode_frame encCfgMono initEncState (EncInput.data 100 0) 13).2 =
       EncResult.bufferTooSmall) ∧
    ((encode_frame encCfgMono initEncState (EncInput.data 100 0) 14).2 =
       EncResult.packet 13) :=
  ⟨(C10_strict_buffer_requirement encCfgMono initEncState statePending1
      (EncInput.data 100 0) 13 (by decide) (by decide)).2.1 (by decide),
   (C10_strict_buffer_requirement encCfgMono initEncState statePending1
      (EncInput.data 100 0) 14 (by decide) (by decide)).2.2 (by decide)⟩

/-! ### C4 -/

/-- Whether an `encode_frame` result carries an emitted packet. -/
def isPacket : EncResult → Bool
  | EncResult.packet _ => true
  | _ => false

/-- An always-adequate output buffer size for one call: one byte more than
the byte count the bitwriter would hold after handling the input. -/
def bigBufFor (cfg : EncCfg) (s : EncState) (input : EncInput) : Nat :=
  match handleInput cfg s input with
  | none => 1
  | some t => speex_bits_nbytes t.bits + 1

/-- Drive a sequence of sample-carrying `encode_frame` calls (one pair of
oracle bit costs per call), each with an adequate output buffer, collecting
the per-call results. -/
def runDataCalls (cfg : EncCfg) : EncState → List (Nat × Nat) → EncState × List EncResult
  | s, [] => (s, [])
  | s, f :: rest =>
    let p := encode_frame cfg s (EncInput.data f.1 f.2) (bigBufFor cfg s (EncInput.data f.1 f.2))
    let q := runDataCalls cfg p.1 rest
    (q.1, p.2 :: q.2)

theorem bigBufFor_some (cfg : EncCfg) (s t : EncState) (input : EncInput)
    (ht : handleInput cfg s input = some t) :
    bigBufFor cfg s input = speex_bits_nbytes t.bits + 1 := by
  unfold bigBufFor
  rw [ht]

/-- A sample-carrying call that does not complete the packet returns
"no packet yet" and just advances the handled state. -/
theorem encode_data_not_full (cfg : EncCfg) (s : EncState) (m st : Nat) (buf_size : Nat)
    (hc : s.pkt_frame_count + 1 ≠ cfg.frames_per_packet) :
    encode_frame cfg s (EncInput.data m st) buf_size =
      (dataStep cfg s m st, EncResult.noPacket) := by
  rw [encode_frame_some cfg s (dataStep cfg s m st) _ buf_size (handleInput_data cfg s m st)]
  exact emitIfReady_not_ready cfg _ buf_size hc

/-- A sample-carrying call that completes the packet, given an adequate
buffer, emits the packet and resets the counters and the bitwriter. -/
theorem encode_data_full_big (cfg : EncCfg) (s : EncState) (m st : Nat)
    (hc : s.pkt_frame_count + 1 = cfg.frames_per_packet) :
    encode_frame cfg s (EncInput.data m st)
        (bigBufFor cfg s (EncInput.data m st)) =
      (⟨0, 0, s.next_pts + (s.pkt_sample_count + cfg.frame_size), [],
        ff_samples_to_time_base cfg (s.next_pts - cfg.delay)⟩,
       EncResult.packet (speex_bits_nbytes (dataStep cfg s m st).bits)) := by
  rw [encode_frame_some cfg s (dataStep cfg s m st) _ _ (handleInput_data cfg s m st),
    emitIfReady_ready_big cfg (dataStep cfg s m st) _ hc
      (by rw [bigBufFor_some cfg s (dataStep cfg s m st) _ (handleInput_data cfg s m st)]; omega)]
  simp [dataStep]

/-- Emission pattern of a run of sample-carrying calls with adequate
buffers: starting `c` frames into a packet, the `i`-th call (0-based)
emits a packet exactly when `frames_per_packet` divides `c + i + 1`, and
every non-emitting call returns "no packet yet" — never an error. -/
theorem runDataCalls_pattern (cfg : EncCfg) (hfpp : 1 ≤ cfg.frames_per_packet) :
    ∀ (frames : List (Nat × Nat)) (s : EncState) (c : Nat),
      s.pkt_frame_count = c → c < cfg.frames_per_packet →
      ((runDataCalls cfg s frames).2.map isPacket =
        (List.range frames.length).map
          (fun i => decide (cfg.frames_per_packet ∣ (c + i + 1)))) ∧
      (∀ r ∈ (runDataCalls cfg s frames).2, isPacket r = false → r = EncResult.noPacket) := by
  intro frames
  induction frames with
  | nil =>
    intro s c _ _
    simp [runDataCalls]
  | cons f rest ih =>
    intro s c hsc hlt
    by_cases hc : c + 1 = cfg.frames_per_packet
    · have hc' : s.pkt_frame_count + 1 = cfg.frames_per_packet := by omega
      have hstep := encode_data_full_big cfg s f.1 f.2 hc'
      have ihs := ih (⟨0, 0, s.next_pts + (s.pkt_sample_count + cfg.frame_size),
        [], ff_samples_to_time_base cfg (s.next_pts - cfg.delay)⟩ : EncState) 0 rfl
        (by omega)
      constructor
      · simp only [runDataCalls, hstep, List.map_cons, List.length_cons,
          List.range_succ_eq_map, List.map_map]
        refine congrArg₂ List.cons ?_ ?_
        · have hd : cfg.frames_per_packet ∣ c + 0 + 1 := by
            rw [show c + 0 + 1 = cfg.frames_per_packet by omega]
          simp [isPacket, hd]
        · rw [ihs.1]
          refine List.map_congr_left ?_
          intro a _
          simp only [Function.comp_apply]
          rw [decide_eq_decide]
          rw [show (0 : Nat) + a + 1 = a + 1 by omega,
            show c + Nat.succ a + 1 = cfg.frames_per_packet + (a + 1) by omega]
          exact Nat.dvd_add_self_left.symm
      · intro r hr
        simp only [runDataCalls] at hr
        rw [hstep] at hr
        simp only [List.mem_cons] at hr
        rcases hr with rfl | hr
        · intro habs
          simp [isPacket] at habs
        · exact ihs.2 r hr
    · have hc' : s.pkt_frame_count + 1 ≠ cfg.frames_per_packet := by omega
      have hstep := encode_data_not_full cfg s f.1 f.2
        (bigBufFor cfg s (EncInput.data f.1 f.2)) hc'
      have hc1 : (dataStep cfg s f.1 f.2).pkt_frame_count = c + 1 := by
        simp [dataStep]
        omega
      have hlt1 : c + 1 < cfg.frames_per_packet := by omega
      have ihs := ih (dataStep cfg s f.1 f.2) (c + 1) hc1 hlt1
      constructor
      · simp only [runDataCalls, hstep, List.map_cons, List.length_cons,
          List.range_succ_eq_map, List.map_map]
        refine congrArg₂ List.cons ?_ ?_
        · have hnd : ¬ cfg.frames_per_packet ∣ (c + 0 + 1) := by
            intro hdvd
            have := Nat.le_of_dvd (by omega) hdvd
            omega
          simp [isPacket, hnd]
        · rw [ihs.1]
          refine List.map_congr_left ?_
          intro a _
          simp only [Function.comp_apply]
          rw [decide_eq_decide]
          rw [show c + 1 + a + 1 = c + Nat.succ a + 1 by omega]
      · intro r hr
        simp only [runDataCalls] at hr
        rw [hstep] at hr
        simp only [List.mem_cons] at hr
        rcases hr with rfl | hr
        · intro _
          rfl
        · exact ihs.2 r hr

/-- C4: a packet is emitted if and only if `pkt_frame_count` equals
`frames_per_packet` after handling the input (given an adequate output
buffer).  Consequently, over a run of sample-carrying calls starting with
an empty packet, the `i`-th call (0-based) emits exactly when
`frames_per_packet` divides `i + 1` — so with `frames_per_packet = 1`
every sample-carrying call yields a packet, and with
`frames_per_packet = N > 1` only every `N`-th call does, the intermediate
calls returning "no packet yet" rather than an error. -/
theorem C4_packet_iff (cfg : EncCfg) (hfpp : 1 ≤ cfg.frames_per_packet) :
    (∀ (s : EncState) (input : EncInput) (buf_size : Nat),
       (∀ t, handleInput cfg s input = some t →
          speex_bits_nbytes t.bits < buf_size) →
       ((∃ n, (encode_frame cfg s input buf_size).2 = EncResult.packet n) ↔
          (∃ t, handleInput cfg s input = some t ∧
             t.pkt_frame_count = cfg.frames_per_packet))) ∧
    (∀ (s : EncState) (frames : List (Nat × Nat)),
       s.pkt_frame_count = 0 →
       ((runDataCalls cfg s frames).2.map isPacket =
          (List.range frames.length).map
            (fun i => decide (cfg.frames_per_packet ∣ (i + 1)))) ∧
       (∀ r ∈ (runDataCalls cfg s frames).2,
          isPacket r = false → r = EncResult.noPacket)) := by
  constructor
  · intro s input buf_size hbuf
    cases hin : handleInput cfg s input with
    | none =>
      rw [encode_frame_none cfg s input buf_size hin]
      constructor
      · intro ⟨n, hn⟩
        cases hn
      · intro ⟨t, ht, _⟩
        cases ht
    | some t =>
      rw [encode_frame_some cfg s t input buf_size hin]
      by_cases hc : t.pkt_frame_count = cfg.frames_per_packet
      · rw [emitIfReady_ready_big cfg t buf_size hc (hbuf t hin)]
        exact ⟨fun _ => ⟨t, rfl, hc⟩, fun _ => ⟨speex_bits_nbytes t.bits, rfl⟩⟩
      · rw [emitIfReady_not_ready cfg t buf_size hc]
        constructor
        · intro ⟨n, hn⟩
          cases hn
        · intro ⟨t', ht', hc'⟩
          cases ht'
          exact absurd hc' hc
  · intro s frames h0
    have h := runDataCalls_pattern cfg hfpp frames s 0 h0 (by omega)
    simpa using h

/-- Witness for C4: with two frames per packet, two sample-carrying calls
yield "no packet yet" then a packet. -/
theorem C4_witness :
    ((runDataCalls encCfgMono2 initEncState [(100, 0), (100, 0)]).2.map isPacket =
       [false, true]) ∧
    (∀ r ∈ (runDataCalls encCfgMono2 initEncState [(100, 0), (100, 0)]).2,
       isPacket r = false → r = EncResult.noPacket) :=
  have h := (C4_packet_iff encCfgMono2 (by decide)).2 initEncState
    [(100, 0), (100, 0)] (by decide)
  ⟨by rw [h.1]; decide, h.2⟩

/-! ### C6 -/

/-- Invariant maintained by `encode_frame` between calls: the pending
sample count is nonnegative, and it is positive whenever frames are
pending (each pending frame contributed `frame_size > 0` samples). -/
def EncInv (s : EncState) : Prop :=
  0 ≤ s.pkt_sample_count ∧ (s.pkt_frame_count ≠ 0 → 0 < s.pkt_sample_count)

/-- Drive a sequence of `encode_frame` calls (each an input plus an output
buffer size), recording each call's result together with the state after
the call. -/
def runEnc (cfg : EncCfg) : EncState → List (EncInput × Nat) → EncState × List (EncResult × EncState)
  | s, [] => (s, [])
  | s, c :: rest =>
    let p := encode_frame cfg s c.1 c.2
    let q := runEnc cfg p.1 rest
    (q.1, (p.2, p.1) :: q.2)

/-- Timestamps of the emitted packets of a run, in order: the value of
`coded_frame->pts` at each step whose result is an emitted packet. -/
def emittedPts (steps : List (EncResult × EncState)) : List ℚ :=
  (steps.filter (fun x => isPacket x.1)).map (fun x => x.2.coded_frame_pts)

theorem ff_samples_to_time_base_lt (cfg : EncCfg) (hsr : 0 < cfg.sample_rate)
    (hn : 0 < cfg.tb_num) (hd : 0 < cfg.tb_den) (x y : Int) (h : x < y) :
    ff_samples_to_time_base cfg x < ff_samples_to_time_base cfg y := by
  unfold ff_samples_to_time_base
  have hsn : (0 : ℚ) < (cfg.sample_rate : ℚ) * (cfg.tb_num : ℚ) := by
    have h1 : (0 : ℚ) < (cfg.sample_rate : ℚ) := by exact_mod_cast hsr
    have h2 : (0 : ℚ) < (cfg.tb_num : ℚ) := by exact_mod_cast hn
    exact mul_pos h1 h2
  rw [div_lt_div_iff_of_pos_right hsn]
  have hd' : (0 : ℚ) < (cfg.tb_den : ℚ) := by exact_mod_cast hd
  have hxy : (x : ℚ) < (y : ℚ) := by exact_mod_cast h
  exact mul_lt_mul_of_pos_right hxy hd'

theorem ff_samples_to_time_base_le (cfg : EncCfg) (hsr : 0 < cfg.sample_rate)
    (hn : 0 < cfg.tb_num) (hd : 0 < cfg.tb_den) (x y : Int) (h : x ≤ y) :
    ff_samples_to_time_base cfg x ≤ ff_samples_to_time_base cfg y := by
  rcases lt_or_eq_of_le h with h | h
  · exact le_of_lt (ff_samples_to_time_base_lt cfg hsr hn hd x y h)
  · rw [h]

/-- Any state produced by the input-handling phase from an invariant state
has a positive pending sample count (given `frame_size > 0`). -/
theorem handleInput_sample_pos (cfg : EncCfg) (hfs : 0 < cfg.frame_size)
    (s t : EncState) (input : EncInput) (hinv : EncInv s)
    (ht : handleInput cfg s input = some t) :
    0 < t.pkt_sample_count ∧ t.pkt_sample_count = s.pkt_sample_count ∨
    0 < t.pkt_sample_count ∧ t.pkt_sample_count = s.pkt_sample_count + cfg.frame_size := by
  obtain ⟨hinv1, hinv2⟩ := hinv
  cases input with
  | data m st =>
    rw [handleInput_data] at ht
    cases ht
    right
    constructor
    · simp only [dataStep]
      omega
    · rfl
  | eos =>
    by_cases h0 : s.pkt_frame_count = 0
    · rw [handleInput_eos_zero cfg s h0] at ht
      cases ht
    · simp only [handleInput, if_neg h0, padTerminators_eq, Option.some.injEq] at ht
      cases ht
      left
      exact ⟨hinv2 h0, rfl⟩

/-- Single-step facts used for the timestamp-chain proof: the invariant is
preserved, `next_pts` never decreases, and on packet emission the new
`coded_frame_pts` is the converted pre-call clock and `next_pts` strictly
advances. -/
theorem encode_step_facts (cfg : EncCfg) (hfs : 0 < cfg.frame_size)
    (s : EncState) (input : EncInput) (buf_size : Nat) (hinv : EncInv s) :
    EncInv (encode_frame cfg s input buf_size).1 ∧
    s.next_pts ≤ (encode_frame cfg s input buf_size).1.next_pts ∧
    (isPacket (encode_frame cfg s input buf_size).2 = true →
      (encode_frame cfg s input buf_size).1.coded_frame_pts =
        ff_samples_to_time_base cfg (s.next_pts - cfg.delay) ∧
      s.next_pts < (encode_frame cfg s input buf_size).1.next_pts) := by
  cases hin : handleInput cfg s input with
  | none =>
    rw [encode_frame_none cfg s input buf_size hin]
    refine ⟨hinv, le_refl _, fun habs => ?_⟩
    simp [isPacket] at habs
  | some t =>
    have hnext := (handleInput_some cfg s t input hin).1
    have hsc := handleInput_sample_pos cfg hfs s t input hinv hin
    have hsc' : 0 < t.pkt_sample_count := by rcases hsc with ⟨h, _⟩ | ⟨h, _⟩ <;> exact h
    rw [encode_frame_some cfg s t input buf_size hin]
    by_cases hc : t.pkt_frame_count = cfg.frames_per_packet
    · by_cases hb : speex_bits_nbytes t.bits < buf_size
      · rw [emitIfReady_ready_big cfg t buf_size hc hb]
        refine ⟨⟨le_refl 0, fun h => absurd rfl h⟩, ?_, fun _ => ⟨by rw [hnext], ?_⟩⟩
        · simp only
          omega
        · simp only
          omega
      · rw [emitIfReady_ready_small cfg t buf_size hc hb]
        refine ⟨⟨le_refl 0, fun h => absurd rfl h⟩, by simp only; omega, fun habs => ?_⟩
        simp [isPacket] at habs
    · rw [emitIfReady_not_ready cfg t buf_size hc]
      refine ⟨⟨le_of_lt hsc', fun _ => hsc'⟩, le_of_eq hnext.symm, fun habs => ?_⟩
      simp [isPacket] at habs

/-- The emitted-timestamp chain: from any invariant state, the timestamps
of the packets emitted along a run are strictly increasing, and all of them
are at least the converted current clock. -/
theorem emittedPts_chain (cfg : EncCfg) (hfs : 0 < cfg.frame_size)
    (hsr : 0 < cfg.sample_rate) (hn : 0 < cfg.tb_num) (hd : 0 < cfg.tb_den) :
    ∀ (calls : List (EncInput × Nat)) (s : EncState), EncInv s →
      List.Chain' (fun a b => a < b) (emittedPts (runEnc cfg s calls).2) ∧
      (∀ q ∈ emittedPts (runEnc cfg s calls).2,
         ff_samples_to_time_base cfg (s.next_pts - cfg.delay) ≤ q) := by
  intro calls
  induction calls with
  | nil =>
    intro s _
    simp [runEnc, emittedPts]
  | cons c rest ih =>
    intro s hinv
    obtain ⟨hinv1, hmono, hpkt⟩ := encode_step_facts cfg hfs s c.1 c.2 hinv
    have ihs := ih (encode_frame cfg s c.1 c.2).1 hinv1
    have hble : ff_samples_to_time_base cfg (s.next_pts - cfg.delay) ≤
        ff_samples_to_time_base cfg ((encode_frame cfg s c.1 c.2).1.next_pts - cfg.delay) :=
      ff_samples_to_time_base_le cfg hsr hn hd _ _ (by omega)
    by_cases hp : isPacket (encode_frame cfg s c.1 c.2).2 = true
    · obtain ⟨hpts, hlt⟩ := hpkt hp
      have hblt : ff_samples_to_time_base cfg (s.next_pts - cfg.delay) <
          ff_samples_to_time_base cfg ((encode_frame cfg s c.1 c.2).1.next_pts - cfg.delay) :=
        ff_samples_to_time_base_lt cfg hsr hn hd _ _ (by omega)
      have hemit : emittedPts (runEnc cfg s (c :: rest)).2 =
          (encode_frame cfg s c.1 c.2).1.coded_frame_pts ::
            emittedPts (runEnc cfg (encode_frame cfg s c.1 c.2).1 rest).2 := by
        simp [runEnc, emittedPts, hp]
      rw [hemit]
      constructor
      · rw [List.chain'_cons']
        refine ⟨fun y hy => ?_, ihs.1⟩
        have hym : y ∈ emittedPts (runEnc cfg (encode_frame cfg s c.1 c.2).1 rest).2 :=
          List.mem_of_mem_head? hy
        have := ihs.2 y hym
        rw [hpts]
        exact lt_of_lt_of_le hblt this
      · intro q hq
        rcases List.mem_cons.mp hq with rfl | hq
        · rw [hpts]
        · exact le_trans hble (ihs.2 q hq)
    · have hemit : emittedPts (runEnc cfg s (c :: rest)).2 =
          emittedPts (runEnc cfg (encode_frame cfg s c.1 c.2).1 rest).2 := by
        simp [runEnc, emittedPts, hp]
      rw [hemit]
      exact ⟨ihs.1, fun q hq => le_trans hble (ihs.2 q hq)⟩

/-- C6: whenever a packet-emission is triggered, the emitted timestamp
(`coded_frame->pts`) equals `next_pts - delay` converted to the caller's
time base, and `next_pts` is advanced by the packet's aggregate sample
count; consequently, along any run from an invariant state, the timestamps
of the emitted packets are strictly increasing. -/
theorem C6_pts_strictly_increasing (cfg : EncCfg) (hfs : 0 < cfg.frame_size)
    (hsr : 0 < cfg.sample_rate) (hn : 0 < cfg.tb_num) (hd : 0 < cfg.tb_den) :
    (∀ (s t : EncState) (input : EncInput) (buf_size : Nat),
       handleInput cfg s input = some t →
       t.pkt_frame_count = cfg.frames_per_packet →
       (encode_frame cfg s input buf_size).1.coded_frame_pts =
         ff_samples_to_time_base cfg (s.next_pts - cfg.delay) ∧
       (encode_frame cfg s input buf_size).1.next_pts =
         s.next_pts + t.pkt_sample_count) ∧
    (∀ (s : EncState) (calls : List (EncInput × Nat)), EncInv s →
       List.Chain' (fun a b => a < b) (emittedPts (runEnc cfg s calls).2)) := by
  constructor
  · intro s t input buf_size ht hc
    have hnext := (handleInput_some cfg s t input ht).1
    rw [encode_frame_some cfg s t input buf_size ht]
    by_cases hb : speex_bits_nbytes t.bits < buf_size
    · rw [emitIfReady_ready_big cfg t buf_size hc hb]
      exact ⟨by rw [hnext], by rw [hnext]⟩
    · rw [emitIfReady_ready_small cfg t buf_size hc hb]
      exact ⟨by rw [hnext], by rw [hnext]⟩
  · intro s calls hinv
    exact (emittedPts_chain cfg hfs hsr hn hd calls s hinv).1

/-- Witness for C6: two frame-plus-flush calls from the initial state
produce strictly increasing timestamps. -/
theorem C6_witness :
    List.Chain' (fun a b => a < b)
      (emittedPts (runEnc encCfgMono initEncState
        [(EncInput.data 100 0, 100), (EncInput.data 80 0, 100)]).2) :=
  (C6_pts_strictly_increasing encCfgMono (by decide) (by decide) (by decide)
      (by decide)).2 initEncState
    [(EncInput.data 100 0, 100), (EncInput.data 80 0, 100)]
    ⟨le_refl 0, fun h => absurd rfl h⟩

/-! ### Init-side characterization lemmas -/

theorem initWithMode_no_invalid (cfg : InitCfg) (lib : SpeexLib) (mode : SpeexMode) :
    (initWithMode cfg lib mode).1 ≠ Except.error InitError.invalidConfig := by
  unfold initWithMode
  split_ifs <;> simp

/-- The success result of `initWithMode`, in closed form. -/
theorem initWithMode_ok_inv (cfg : InitCfg) (lib : SpeexLib) (mode : SpeexMode)
    (ok : InitOk) (hok : (initWithMode cfg lib mode).1 = Except.ok ok) :
    ok = ⟨mode, (rcSelect cfg lib).1, (rcSelect cfg lib).2.1, (rcSelect cfg lib).2.2.1,
          (rcSelect cfg lib).2.2.2,
          (if cfg.flag_qscale then cfg.bit_rate
           else (rcSelect cfg lib).2.1 + (if cfg.channels = 2 then 800 else 0)),
          (if (-1 : Int) < cfg.compression_level then
             lib.complexity_readback (some (av_clip cfg.compression_level 0 10))
           else lib.complexity_readback none),
          lib.frame_size_of mode, cfg.frames_per_packet, lib.lookahead,
          lib.header_size, initEncState⟩ := by
  unfold initWithMode at hok
  by_cases h1 : lib.encoder_init_ok = false
  · rw [if_pos h1] at hok
    cases hok
  · rw [if_neg h1] at hok
    by_cases h2 : lib.extradata_ok = false ∨ lib.coded_frame_ok = false
    · simp only [if_pos h2] at hok
      cases hok
    · simp only [if_neg h2, Except.ok.injEq] at hok
      exact hok.symm

/-- A successful `encode_init` pins down the channel validity, the sample
rate, and the selected mode. -/
theorem encode_init_ok_cases (cfg : InitCfg) (lib : SpeexLib) (ok : InitOk)
    (hok : (encode_init cfg lib).1 = Except.ok ok) :
    ¬(cfg.channels < 1 ∨ 2 < cfg.channels) ∧
    ((cfg.sample_rate = 8000 ∧ (initWithMode cfg lib SpeexMode.nb).1 = Except.ok ok) ∨
     (cfg.sample_rate = 16000 ∧ (initWithMode cfg lib SpeexMode.wb).1 = Except.ok ok) ∨
     (cfg.sample_rate = 32000 ∧ (initWithMode cfg lib SpeexMode.uwb).1 = Except.ok ok)) := by
  unfold encode_init at hok
  by_cases h1 : cfg.channels < 1 ∨ 2 < cfg.channels
  · rw [if_pos h1] at hok
    simp at hok
  · rw [if_neg h1] at hok
    by_cases h2 : cfg.sample_rate = 8000
    · rw [if_pos h2] at hok
      exact ⟨h1, Or.inl ⟨h2, hok⟩⟩
    · rw [if_neg h2] at hok
      by_cases h3 : cfg.sample_rate = 16000
      · rw [if_pos h3] at hok
        exact ⟨h1, Or.inr (Or.inl ⟨h3, hok⟩)⟩
      · rw [if_neg h3] at hok
        by_cases h4 : cfg.sample_rate = 32000
        · rw [if_pos h4] at hok
          exact ⟨h1, Or.inr (Or.inr ⟨h4, hok⟩)⟩
        · rw [if_neg h4] at hok
          simp at hok

/-- A concrete library oracle for witnesses: the codec instance and both
allocations succeed, narrowband negotiation echoes the target bitrate. -/
def libOk : SpeexLib :=
  ⟨true, -1, fun b => b, fun b => b + 200, fun _ => 8000,
   fun o => match o with | some c => c | none => 3,
   fun m => match m with | SpeexMode.nb => 160 | SpeexMode.wb => 320 | SpeexMode.uwb => 640,
   40, 80, true, true⟩

/-! ### C7 -/

/-- C7: `encode_init` fails with the invalid-configuration error exactly
when the channel count is outside {1,2} or the sample rate is outside
{8000, 16000, 32000}; on success, the mode matches the sample rate
(8000 → narrowband, 16000 → wideband, 32000 → ultra-wideband). -/
theorem C7_invalid_config_iff (cfg : InitCfg) (lib : SpeexLib) :
    ((encode_init cfg lib).1 = Except.error InitError.invalidConfig ↔
       ¬((1 ≤ cfg.channels ∧ cfg.channels ≤ 2) ∧
         (cfg.sample_rate = 8000 ∨ cfg.sample_rate = 16000 ∨
          cfg.sample_rate = 32000))) ∧
    (∀ ok : InitOk, (encode_init cfg lib).1 = Except.ok ok →
       ((cfg.sample_rate = 8000 → ok.mode = SpeexMode.nb) ∧
        (cfg.sample_rate = 16000 → ok.mode = SpeexMode.wb) ∧
        (cfg.sample_rate = 32000 → ok.mode = SpeexMode.uwb))) := by
  constructor
  · unfold encode_init
    split_ifs with h1 h2 h3 h4
    · refine iff_of_true rfl ?_
      rintro ⟨⟨ha, hb⟩, _⟩
      omega
    · refine iff_of_false (initWithMode_no_invalid cfg lib SpeexMode.nb) ?_
      intro hneg
      exact hneg ⟨by omega, Or.inl h2⟩
    · refine iff_of_false (initWithMode_no_invalid cfg lib SpeexMode.wb) ?_
      intro hneg
      exact hneg ⟨by omega, Or.inr (Or.inl h3)⟩
    · refine iff_of_false (initWithMode_no_invalid cfg lib SpeexMode.uwb) ?_
      intro hneg
      exact hneg ⟨by omega, Or.inr (Or.inr h4)⟩
    · refine iff_of_true rfl ?_
      rintro ⟨_, h | h | h⟩ <;> omega
  · intro ok hok
    rcases (encode_init_ok_cases cfg lib ok hok).2 with ⟨hr, hw⟩ | ⟨hr, hw⟩ | ⟨hr, hw⟩ <;>
      rw [initWithMode_ok_inv cfg lib _ ok hw] <;>
      refine ⟨fun h => ?_, fun h => ?_, fun h => ?_⟩ <;> first | rfl | omega

/-- Witness for C7: channel count 3 is rejected as invalid configuration,
and at 16 kHz the wideband mode is selected. -/
theorem C7_witness :
    (encode_init ⟨3, 8000, false, 0, 0, false, 8, -1, 1⟩ libOk).1 =
        Except.error InitError.invalidConfig ∧
    ∀ ok : InitOk,
      (encode_init ⟨1, 16000, false, 0, 0, false, 8, -1, 1⟩ libOk).1 = Except.ok ok →
      ok.mode = SpeexMode.wb :=
  ⟨(C7_invalid_config_iff ⟨3, 8000, false, 0, 0, false, 8, -1, 1⟩ libOk).1.mpr
      (by intro h; exact absurd h.1.2 (by decide)),
   fun ok hok =>
     ((C7_invalid_config_iff ⟨1, 16000, false, 0, 0, false, 8, -1, 1⟩ libOk).2
        ok hok).2.1 rfl⟩

/-! ### C8 -/

/-- C8: `encode_init` applies exactly one rate-control policy, selected in
this precedence order: quality-scale flag → VBR with the clamped quality;
else bitrate > 0 with ABR requested → ABR with the codec's negotiated
bitrate read back into the header; else bitrate > 0 → CBR bitrate with
read-back; else → CBR by quality with the resulting bitrate read back. -/
theorem C8_rate_control_precedence (cfg : InitCfg) (lib : SpeexLib) (ok : InitOk)
    (hok : (encode_init cfg lib).1 = Except.ok ok) :
    (cfg.flag_qscale = true →
       ok.rc = RateControl.vbr
         (av_clipf ((cfg.global_quality : ℚ) / (FF_QP2LAMBDA : ℚ)) 0 10)) ∧
    (cfg.flag_qscale = false → 0 < cfg.bit_rate → cfg.abr = true →
       ok.rc = RateControl.abr (lib.abr_negotiate cfg.bit_rate) ∧
       ok.header_bitrate = lib.abr_negotiate cfg.bit_rate) ∧
    (cfg.flag_qscale = false → 0 < cfg.bit_rate → cfg.abr = false →
       ok.rc = RateControl.cbrBitrate (lib.cbr_negotiate cfg.bit_rate) ∧
       ok.header_bitrate = lib.cbr_negotiate cfg.bit_rate) ∧
    (cfg.flag_qscale = false → cfg.bit_rate ≤ 0 →
       ok.rc = RateControl.cbrQuality cfg.cbr_quality
         (lib.quality_bitrate cfg.cbr_quality) ∧
       ok.header_bitrate = lib.quality_bitrate cfg.cbr_quality) := by
  have hcase := (encode_init_ok_cases cfg lib ok hok).2
  have hrec : ok.rc = (rcSelect cfg lib).2.2.2 ∧
      ok.header_bitrate = (rcSelect cfg lib).2.1 := by
    rcases hcase with ⟨_, hw⟩ | ⟨_, hw⟩ | ⟨_, hw⟩ <;>
      rw [initWithMode_ok_inv cfg lib _ ok hw] <;> exact ⟨rfl, rfl⟩
  rw [hrec.1, hrec.2]
  refine ⟨fun hq => ?_, fun hq hbr habr => ?_, fun hq hbr habr => ?_, fun hq hbr => ?_⟩ <;>
    simp only [rcSelect, hq, if_true, if_false, Bool.false_eq_true] <;>
    try simp
  · rw [if_pos hbr, if_pos (by rw [habr])]
    exact ⟨rfl, rfl⟩
  · rw [if_pos hbr, if_neg (by rw [habr]; exact Bool.false_ne_true)]
    exact ⟨rfl, rfl⟩
  · rw [if_neg (by omega)]
    exact ⟨rfl, rfl⟩

/-! ### C9 -/

/-- C9: in the non-VBR branches, the bitrate reported back to the caller
equals the codec's negotiated header bitrate plus exactly 800 bps when the
channel count is 2, and the negotiated bitrate unchanged when it is 1. -/
theorem C9_stereo_bitrate_overhead (cfg : InitCfg) (lib : SpeexLib) (ok : InitOk)
    (hq : cfg.flag_qscale = false)
    (hok : (encode_init cfg lib).1 = Except.ok ok) :
    (cfg.channels = 2 → ok.bit_rate = ok.header_bitrate + 800) ∧
    (cfg.channels = 1 → ok.bit_rate = ok.header_bitrate) := by
  have hcase := (encode_init_ok_cases cfg lib ok hok).2
  have hrec : ok.bit_rate = (if cfg.flag_qscale then cfg.bit_rate
        else (rcSelect cfg lib).2.1 + (if cfg.channels = 2 then 800 else 0)) ∧
      ok.header_bitrate = (rcSelect cfg lib).2.1 := by
    rcases hcase with ⟨_, hw⟩ | ⟨_, hw⟩ | ⟨_, hw⟩ <;>
      rw [initWithMode_ok_inv cfg lib _ ok hw] <;> exact ⟨rfl, rfl⟩
  rw [hrec.1, hrec.2, hq]
  constructor
  · intro h2
    rw [if_neg (by simp), if_pos h2]
  · intro h1
    rw [if_neg (by simp), if_neg (by omega)]
    omega

/-- Witness for C8: with no quality-scale flag, bitrate 15000 and the ABR
option set, the ABR branch is taken and the negotiated bitrate read back. -/
theorem C8_witness :
    (encode_init ⟨1, 8000, false, 0, 15000, true, 8, -1, 1⟩ libOk).1 =
      Except.ok (⟨SpeexMode.nb, false, 15000, 0, RateControl.abr 15000, 15000, 3,
        160, 1, 40, 80, initEncState⟩ : InitOk) ∧
    (⟨SpeexMode.nb, false, 15000, 0, RateControl.abr 15000, 15000, 3,
        160, 1, 40, 80, initEncState⟩ : InitOk).rc = RateControl.abr 15000 ∧
    (⟨SpeexMode.nb, false, 15000, 0, RateControl.abr 15000, 15000, 3,
        160, 1, 40, 80, initEncState⟩ : InitOk).header_bitrate = 15000 :=
  have hok : (encode_init ⟨1, 8000, false, 0, 15000, true, 8, -1, 1⟩ libOk).1 =
      Except.ok (⟨SpeexMode.nb, false, 15000, 0, RateControl.abr 15000, 15000, 3,
        160, 1, 40, 80, initEncState⟩ : InitOk) := rfl
  ⟨hok,
   (C8_rate_control_precedence ⟨1, 8000, false, 0, 15000, true, 8, -1, 1⟩ libOk _
      hok).2.1 rfl (by decide) rfl⟩

/-- Witness for C9: stereo CBR at target 20000 reports the negotiated
20200 plus the fixed 800 bps stereo allowance. -/
theorem C9_witness :
    (encode_init ⟨2, 8000, false, 0, 20000, false, 8, -1, 1⟩ libOk).1 =
      Except.ok (⟨SpeexMode.nb, false, 20200, 0, RateControl.cbrBitrate 20200, 21000,
        3, 160, 1, 40, 80, initEncState⟩ : InitOk) ∧
    (⟨SpeexMode.nb, false, 20200, 0, RateControl.cbrBitrate 20200, 21000,
        3, 160, 1, 40, 80, initEncState⟩ : InitOk).bit_rate =
      (⟨SpeexMode.nb, false, 20200, 0, RateControl.cbrBitrate 20200, 21000,
        3, 160, 1, 40, 80, initEncState⟩ : InitOk).header_bitrate + 800 :=
  have hok : (encode_init ⟨2, 8000, false, 0, 20000, false, 8, -1, 1⟩ libOk).1 =
      Except.ok (⟨SpeexMode.nb, false, 20200, 0, RateControl.cbrBitrate 20200, 21000,
        3, 160, 1, 40, 80, initEncState⟩ : InitOk) := rfl
  ⟨hok,
   (C9_stereo_bitrate_overhead ⟨2, 8000, false, 0, 20000, false, 8, -1, 1⟩ libOk _
      rfl hok).1 rfl⟩

/-! ### C3 -/

/-- C3: in VBR mode (quality-scale flag set) the stored VBR quality is
always within [0, 10]; a caller quality of −5 (i.e.
`global_quality = −5·FF_QP2LAMBDA`) stores 0, and a caller quality of 99
stores 10. -/
theorem C3_vbr_quality_clamped (cfg : InitCfg) (lib : SpeexLib) (ok : InitOk)
    (hq : cfg.flag_qscale = true)
    (hok : (encode_init cfg lib).1 = Except.ok ok) :
    (0 ≤ ok.vbr_quality ∧ ok.vbr_quality ≤ 10) ∧
    (cfg.global_quality = -5 * FF_QP2LAMBDA → ok.vbr_quality = 0) ∧
    (cfg.global_quality = 99 * FF_QP2LAMBDA → ok.vbr_quality = 10) := by
  have hcase := (encode_init_ok_cases cfg lib ok hok).2
  have hrec : ok.vbr_quality = (rcSelect cfg lib).2.2.1 := by
    rcases hcase with ⟨_, hw⟩ | ⟨_, hw⟩ | ⟨_, hw⟩ <;>
      rw [initWithMode_ok_inv cfg lib _ ok hw]
  rw [hrec]
  simp only [rcSelect, hq, if_true]
  refine ⟨?_, fun hg => ?_, fun hg => ?_⟩
  · unfold av_clipf
    split_ifs with ha hb
    · exact ⟨le_refl 0, by norm_num⟩
    · exact ⟨by norm_num, le_refl 10⟩
    · exact ⟨by linarith [not_lt.mp ha], not_lt.mp (by simpa using hb)⟩
  · rw [hg]
    norm_num [av_clipf, FF_QP2LAMBDA]
  · rw [hg]
    norm_num [av_clipf, FF_QP2LAMBDA]

/-- Witness for C3: `global_quality = −590` stores quality 0 and
`global_quality = 11682` stores quality 10. -/
theorem C3_witness :
    ((encode_init ⟨1, 8000, true, -590, 0, false, 8, -1, 1⟩ libOk).1 =
       Except.ok (⟨SpeexMode.nb, true, -1, 0, RateControl.vbr 0, 0, 3,
         160, 1, 40, 80, initEncState⟩ : InitOk)) ∧
    ((encode_init ⟨1, 8000, true, 11682, 0, false, 8, -1, 1⟩ libOk).1 =
       Except.ok (⟨SpeexMode.nb, true, -1, 10, RateControl.vbr 10, 0, 3,
         160, 1, 40, 80, initEncState⟩ : InitOk)) ∧
    (⟨SpeexMode.nb, true, -1, 0, RateControl.vbr 0, 0, 3,
        160, 1, 40, 80, initEncState⟩ : InitOk).vbr_quality = 0 ∧
    (⟨SpeexMode.nb, true, -1, 10, RateControl.vbr 10, 0, 3,
        160, 1, 40, 80, initEncState⟩ : InitOk).vbr_quality = 10 :=
  have hok1 : (encode_init ⟨1, 8000, true, -590, 0, false, 8, -1, 1⟩ libOk).1 =
      Except.ok (⟨SpeexMode.nb, true, -1, 0, RateControl.vbr 0, 0, 3,
        160, 1, 40, 80, initEncState⟩ : InitOk) := by
    norm_num [encode_init, initWithMode, rcSelect, av_clipf, FF_QP2LAMBDA, libOk,
      initEncState]
  have hok2 : (encode_init ⟨1, 8000, true, 11682, 0, false, 8, -1, 1⟩ libOk).1 =
      Except.ok (⟨SpeexMode.nb, true, -1, 10, RateControl.vbr 10, 0, 3,
        160, 1, 40, 80, initEncState⟩ : InitOk) := by
    norm_num [encode_init, initWithMode, rcSelect, av_clipf, FF_QP2LAMBDA, libOk,
      initEncState]
  ⟨hok1, hok2,
   (C3_vbr_quality_clamped ⟨1, 8000, true, -590, 0, false, 8, -1, 1⟩ libOk _
      rfl hok1).2.1 (by decide),
   (C3_vbr_quality_clamped ⟨1, 8000, true, 11682, 0, false, 8, -1, 1⟩ libOk _
      rfl hok2).2.2 (by decide)⟩

/-! ### C2 -/

/-- C2 evidence: when `speex_encoder_init` and the `extradata` allocation
succeed but `avcodec_alloc_frame` fails, `encode_init` returns the
allocation-failure error having destroyed the codec instance and freed the
libspeex header bytes — but it does NOT free the successfully allocated
`avctx->extradata`, leaving a partially allocated output buffer behind,
contrary to the claim that every such buffer is released. -/
theorem C2_alloc_failure_leaks_extradata :
    (encode_init ⟨1, 8000, false, 0, 0, false, 8, -1, 1⟩
        ⟨true, -1, fun b => b, fun b => b + 200, fun _ => 8000,
         fun o => match o with | some c => c | none => 3,
         fun _ => 160, 40, 80, true, false⟩).1 =
      Except.error InitError.allocationFailed ∧
    (encode_init ⟨1, 8000, false, 0, 0, false, 8, -1, 1⟩
        ⟨true, -1, fun b => b, fun b => b + 200, fun _ => 8000,
         fun o => match o with | some c => c | none => 3,
         fun _ => 160, 40, 80, true, false⟩).2.enc_state_destroyed = true ∧
    (encode_init ⟨1, 8000, false, 0, 0, false, 8, -1, 1⟩
        ⟨true, -1, fun b => b, fun b => b + 200, fun _ => 8000,
         fun o => match o with | some c => c | none => 3,
         fun _ => 160, 40, 80, true, false⟩).2.header_data_freed = true ∧
    (encode_init ⟨1, 8000, false, 0, 0, false, 8, -1, 1⟩
        ⟨true, -1, fun b => b, fun b => b + 200, fun _ => 8000,
         fun o => match o with | some c => c | none => 3,
         fun _ => 160, 40, 80, true, false⟩).2.extradata_allocated = true ∧
    (encode_init ⟨1, 8000, false, 0, 0, false, 8, -1, 1⟩
        ⟨true, -1, fun b => b, fun b => b + 200, fun _ => 8000,
         fun o => match o with | some c => c | none => 3,
         fun _ => 160, 40, 80, true, false⟩).2.extradata_freed = false :=
  ⟨rfl, rfl, rfl, rfl, rfl⟩

end LibSpeexEnc
